import Mathlib

/-!
Verification development for the image-optimizer core in `src/optimizer.rs`
of the leptos-image repository.

Modelling conventions, shared by all definitions below:

* Rust `String`/`&str`/`Path` values are modelled as their byte sequences,
  `List Nat` with every element `< 256` (Rust strings are UTF-8 byte
  sequences; all operations the code performs on them — splitting on `'/'`,
  `'?'`, `'&'`, `'='`, percent- and base64-coding — are byte-level).
* `u32`/`u8` fields are modelled as `Nat`; where a claim needs the machine
  range, the theorem carries explicit bounds (`< 2^32`, `< 2^8`).
* `chrono::DateTime<Utc>` timestamps are modelled as `Int` (seconds); the
  `u64 → i64` cast `ttl as i64` is modelled by two's complement `toI64`.
* Fallible Rust functions returning `Result`/`Option` are modelled with
  `Except`/`Option`.
* The image library (`image::open`, `dimensions`, the WebP encoder, the
  blur-SVG synthesis) is external to the repository; it enters the model as
  two oracle parameters: `dims : List Nat → Option (Nat × Nat)` (decoding a
  byte content as an image: `none` means `image::open` fails, `some (w, h)`
  gives its pixel dimensions) and
  `enc : CachedImageOption → List Nat → List Nat` (the total
  orientation/resize/encode step; the code unwraps encoder errors).
* The filesystem is modelled as an association list from absolute path
  bytes to file content bytes (first binding wins, so prepending a pair is
  an overwriting write).

ASCII codes used throughout: `%`=37, `&`=38, `+`=43, `.`=46, `/`=47,
`=`=61, `?`=63, `[`=91, `]`=93.
-/

/- ======================  percent-coding (serde_qs)  ====================== -/

/-- Upper-case hex digit byte for a value `< 16` (percent_encoding emits
upper case). -/
def hexDig (v : Nat) : Nat := if v < 10 then 48 + v else 55 + v

/-- Value of a hex digit byte, accepting both cases (percent-decoding). -/
def hexVal (b : Nat) : Option Nat :=
  if 48 ≤ b ∧ b ≤ 57 then some (b - 48)
  else if 65 ≤ b ∧ b ≤ 70 then some (b - 55)
  else if 97 ≤ b ∧ b ≤ 102 then some (b - 87)
  else none

/-- Bytes serde_qs leaves unescaped when serializing: ASCII alphanumerics
and `*`(42) `-`(45) `.`(46) `_`(95). Everything else (including `&`, `=`,
`?`, `/`, `[`, `]`, space) is emitted as `%XX`. -/
def isUnres (b : Nat) : Bool :=
  if (48 ≤ b ∧ b ≤ 57) ∨ (65 ≤ b ∧ b ≤ 90) ∨ (97 ≤ b ∧ b ≤ 122) ∨
      b = 42 ∨ b = 45 ∨ b = 46 ∨ b = 95 then true else false

/-- Percent-encoding of one byte. -/
def pctEncodeByte (b : Nat) : List Nat :=
  if isUnres b then [b] else [37, hexDig (b / 16), hexDig (b % 16)]

/-- Percent-encoding of a byte string (serde_qs value/key serialization). -/
def pctEncode (l : List Nat) : List Nat := (l.map pctEncodeByte).flatten

/-- Percent-decoding as serde_qs parsing performs it: `%XX` becomes the
byte `XX`, `+`(43) becomes space (32), a malformed `%` sequence is an
error, any other byte stands for itself. -/
def pctDecode : List Nat → Option (List Nat)
  | [] => some []
  | b :: rest =>
    if b = 43 then (pctDecode rest).map (fun t => 32 :: t)
    else if b = 37 then
      match rest with
      | h :: l :: rest2 =>
        match hexVal h, hexVal l with
        | some hv, some lv => (pctDecode rest2).map (fun t => (hv * 16 + lv) :: t)
        | _, _ => none
      | _ => none
    else (pctDecode rest).map (fun t => b :: t)

/- ======================  decimal numbers  ====================== -/

/-- Big-endian decimal digits of `n` (fuelled; `fuel ≥ n` is enough).
Empty for `n = 0`. -/
def natEncAux : Nat → Nat → List Nat
  | 0, _ => []
  | fuel + 1, n => if n = 0 then [] else natEncAux fuel (n / 10) ++ [n % 10 + 48]

/-- Decimal byte representation of a natural number, as serde_qs /
`itoa` print `u32`/`u8` values. -/
def natEnc (n : Nat) : List Nat := if n = 0 then [48] else natEncAux n n

/-- Parse a decimal byte string, as `str::parse` for an unsigned integer
(digits only, at least one). Range checks live at the use sites. -/
def parseNatBytes (l : List Nat) : Option Nat :=
  if l.isEmpty then none
  else if l.all (fun b => decide (48 ≤ b ∧ b ≤ 57)) then
    some (l.foldl (fun a b => a * 10 + (b - 48)) 0)
  else none

/- ======================  generic splitting  ====================== -/

/-- Rust `str::split(c)` on bytes: splits at every occurrence of `c`,
keeping empty pieces (`"".split` gives one empty piece). -/
def splitOnByte (c : Nat) : List Nat → List (List Nat)
  | [] => [[]]
  | b :: rest =>
    match splitOnByte c rest with
    | s :: ss => if b = c then [] :: s :: ss else (b :: s) :: ss
    | [] => if b = c then [[], []] else [[b]]

/-- Split at the first occurrence of `c`: `(before, after)`; when `c` does
not occur the whole input is `before` and `after` is empty. -/
def splitFirstAt (c : Nat) : List Nat → List Nat × List Nat
  | [] => ([], [])
  | b :: rest =>
    if b = c then ([], rest)
    else
      let p := splitFirstAt c rest
      (b :: p.1, p.2)

/-- Option-valued map over a list (all-or-nothing). -/
def mapOpt : List α → (α → Option β) → Option (List β)
  | [], _ => some []
  | a :: rest, f =>
    match f a with
    | none => none
    | some b =>
      match mapOpt rest f with
      | none => none
      | some bs => some (b :: bs)

/-- First value bound to byte-string key `k` in an association list. -/
def findVal (k : List Nat) : List (List Nat × List Nat) → Option (List Nat)
  | [] => none
  | (k', v) :: rest => if k' = k then some v else findVal k rest

/- ======================  data model (optimizer.rs lines 441-490)  ====================== -/

/-- `Resize { width: u32, height: u32, quality: u8 }` — field keys
`w`/`h`/`q` in the query encoding. -/
structure Resize where
  width : Nat
  height : Nat
  quality : Nat
deriving DecidableEq, Repr

/-- `Blur { width, height, svg_width, svg_height: u32, sigma: u8 }` —
field keys `w`/`h`/`sw`/`sh`/`s`. -/
structure Blur where
  width : Nat
  height : Nat
  svg_width : Nat
  svg_height : Nat
  sigma : Nat
deriving DecidableEq, Repr

/-- `CachedImageOption`: `Resize` (serde tag `r`) or `Blur` (serde tag `b`). -/
inductive CachedImageOption where
  | Resize (r : Resize)
  | Blur (b : Blur)
deriving DecidableEq, Repr

/-- `CachedImage { src: String, option: CachedImageOption }` — the
transform descriptor; `src` is the byte string of the source path. -/
structure CachedImage where
  src : List Nat
  option : CachedImageOption
deriving DecidableEq, Repr

/- ======================  serde_qs query codec  ====================== -/

/-- ASCII bytes of the key src. -/
def kSrc : List Nat := [115, 114, 99]

/-- Bytes of the serialized key option%5Br%5D%5Bw%5D (percent-encoded
brackets, as serde_qs emits). -/
def kRW : List Nat :=
  [111, 112, 116, 105, 111, 110, 37, 53, 66, 114, 37, 53, 68, 37, 53, 66, 119, 37, 53, 68]

/-- Bytes of option%5Br%5D%5Bh%5D. -/
def kRH : List Nat :=
  [111, 112, 116, 105, 111, 110, 37, 53, 66, 114, 37, 53, 68, 37, 53, 66, 104, 37, 53, 68]

/-- Bytes of option%5Br%5D%5Bq%5D. -/
def kRQ : List Nat :=
  [111, 112, 116, 105, 111, 110, 37, 53, 66, 114, 37, 53, 68, 37, 53, 66, 113, 37, 53, 68]

/-- Bytes of option%5Bb%5D%5Bw%5D. -/
def kBW : List Nat :=
  [111, 112, 116, 105, 111, 110, 37, 53, 66, 98, 37, 53, 68, 37, 53, 66, 119, 37, 53, 68]

/-- Bytes of option%5Bb%5D%5Bh%5D. -/
def kBH : List Nat :=
  [111, 112, 116, 105, 111, 110, 37, 53, 66, 98, 37, 53, 68, 37, 53, 66, 104, 37, 53, 68]

/-- Bytes of option%5Bb%5D%5Bsw%5D. -/
def kBSW : List Nat :=
  [111, 112, 116, 105, 111, 110, 37, 53, 66, 98, 37, 53, 68, 37, 53, 66, 115, 119, 37, 53, 68]

/-- Bytes of option%5Bb%5D%5Bsh%5D. -/
def kBSH : List Nat :=
  [111, 112, 116, 105, 111, 110, 37, 53, 66, 98, 37, 53, 68, 37, 53, 66, 115, 104, 37, 53, 68]

/-- Bytes of option%5Bb%5D%5Bs%5D. -/
def kBS : List Nat :=
  [111, 112, 116, 105, 111, 110, 37, 53, 66, 98, 37, 53, 68, 37, 53, 66, 115, 37, 53, 68]

/-- Decoded key option[r][w]. -/
def dRW : List Nat := [111, 112, 116, 105, 111, 110, 91, 114, 93, 91, 119, 93]

/-- Decoded key option[r][h]. -/
def dRH : List Nat := [111, 112, 116, 105, 111, 110, 91, 114, 93, 91, 104, 93]

/-- Decoded key option[r][q]. -/
def dRQ : List Nat := [111, 112, 116, 105, 111, 110, 91, 114, 93, 91, 113, 93]

/-- Decoded key option[b][w]. -/
def dBW : List Nat := [111, 112, 116, 105, 111, 110, 91, 98, 93, 91, 119, 93]

/-- Decoded key option[b][h]. -/
def dBH : List Nat := [111, 112, 116, 105, 111, 110, 91, 98, 93, 91, 104, 93]

/-- Decoded key option[b][sw]. -/
def dBSW : List Nat := [111, 112, 116, 105, 111, 110, 91, 98, 93, 91, 115, 119, 93]

/-- Decoded key option[b][sh]. -/
def dBSH : List Nat := [111, 112, 116, 105, 111, 110, 91, 98, 93, 91, 115, 104, 93]

/-- Decoded key option[b][s]. -/
def dBS : List Nat := [111, 112, 116, 105, 111, 110, 91, 98, 93, 91, 115, 93]

/-- `serde_qs::to_string(self)` (optimizer.rs lines 503, 511): fields in
declaration order (`src` then `option`), the externally tagged enum as
nested bracket keys, brackets percent-encoded, values percent-encoded
(`src`) or plain decimal (the integer fields), pairs joined with `&`(38),
keys and values joined with `=`(61). -/
def qsEncode (img : CachedImage) : List Nat :=
  kSrc ++ 61 :: pctEncode img.src ++ 38 ::
    (match img.option with
     | .Resize r =>
       kRW ++ 61 :: natEnc r.width ++ 38 ::
         (kRH ++ 61 :: natEnc r.height ++ 38 ::
           (kRQ ++ 61 :: natEnc r.quality))
     | .Blur b =>
       kBW ++ 61 :: natEnc b.width ++ 38 ::
         (kBH ++ 61 :: natEnc b.height ++ 38 ::
           (kBSW ++ 61 :: natEnc b.svg_width ++ 38 ::
             (kBSH ++ 61 :: natEnc b.svg_height ++ 38 ::
               (kBS ++ 61 :: natEnc b.sigma)))))

/-- One `key=value` pair of a query string: split at the first `=`,
percent-decode both sides. -/
def parsePair (p : List Nat) : Option (List Nat × List Nat) :=
  let s := splitFirstAt 61 p
  match pctDecode s.1, pctDecode s.2 with
  | some k, some v => some (k, v)
  | _, _ => none

/-- Deserializing the parsed `key=value` pairs into the struct: a `src`
binding plus either the three resize keys (`u32`,`u32`,`u8` ranges) or
the five blur keys. Key order is irrelevant, exactly the expected pairs
must occur. -/
def qsDecodePairs (pairs : List (List Nat × List Nat)) : Option CachedImage :=
  match findVal kSrc pairs with
  | none => none
  | some srcv =>
    match findVal dRW pairs, findVal dRH pairs, findVal dRQ pairs with
    | some wv, some hv, some qv =>
      if pairs.length = 4 then
        match parseNatBytes wv, parseNatBytes hv, parseNatBytes qv with
        | some w, some h, some q =>
          if w < 4294967296 ∧ h < 4294967296 ∧ q < 256 then
            some ⟨srcv, .Resize ⟨w, h, q⟩⟩
          else none
        | _, _, _ => none
      else none
    | _, _, _ =>
      match findVal dBW pairs, findVal dBH pairs, findVal dBSW pairs,
            findVal dBSH pairs, findVal dBS pairs with
      | some wv, some hv, some swv, some shv, some sv =>
        if pairs.length = 6 then
          match parseNatBytes wv, parseNatBytes hv, parseNatBytes swv,
                parseNatBytes shv, parseNatBytes sv with
          | some w, some h, some sw, some sh, some sg =>
            if w < 4294967296 ∧ h < 4294967296 ∧ sw < 4294967296 ∧
                sh < 4294967296 ∧ sg < 256 then
              some ⟨srcv, .Blur ⟨w, h, sw, sh, sg⟩⟩
            else none
          | _, _, _, _, _ => none
        else none
      | _, _, _, _, _ => none

/-- `serde_qs::from_str::<CachedImage>` on a query byte string: split on
`&`, parse each pair, then deserialize the struct. -/
def qsDecode (s : List Nat) : Option CachedImage :=
  (mapOpt (splitOnByte 38 s) parsePair).bind qsDecodePairs

/- ======================  base64 (STANDARD, padded)  ====================== -/

/-- Standard-alphabet base64 character for a sextet `< 64`. -/
def b64tbl (n : Nat) : Nat :=
  if n < 26 then 65 + n
  else if n < 52 then 71 + n
  else if n < 62 then n - 4
  else if n = 62 then 43
  else 47

/-- The four characters encoding one three-byte group. -/
def b64quad (a b c : Nat) : List Nat :=
  [b64tbl (a / 4), b64tbl ((a % 4) * 16 + b / 16),
   b64tbl ((b % 16) * 4 + c / 64), b64tbl (c % 64)]

/-- `base64::engine::general_purpose::STANDARD.encode`: three-byte groups,
`=`(61)-padded tail. -/
def b64Encode : List Nat → List Nat
  | a :: b :: c :: rest => b64quad a b c ++ b64Encode rest
  | [a, b] => [b64tbl (a / 4), b64tbl ((a % 4) * 16 + b / 16), b64tbl ((b % 16) * 4), 61]
  | [a] => [b64tbl (a / 4), b64tbl ((a % 4) * 16), 61, 61]
  | [] => []

/-- Sextet value of a standard-alphabet base64 character. -/
def b64val (b : Nat) : Option Nat :=
  if 65 ≤ b ∧ b ≤ 90 then some (b - 65)
  else if 97 ≤ b ∧ b ≤ 122 then some (b - 71)
  else if 48 ≤ b ∧ b ≤ 57 then some (b + 4)
  else if b = 43 then some 62
  else if b = 47 then some 63
  else none

/-- Quad-by-quad canonical decoding (padding only in the last quad, unused
trailing bits must be zero, mirroring the default STANDARD config). -/
def b64DecodeAux : List Nat → Option (List Nat)
  | [] => some []
  | c1 :: c2 :: c3 :: c4 :: rest =>
    match b64val c1, b64val c2 with
    | some v1, some v2 =>
      if c3 = 61 then
        if c4 = 61 ∧ rest = [] ∧ v2 % 16 = 0 then some [v1 * 4 + v2 / 16] else none
      else
        match b64val c3 with
        | some v3 =>
          if c4 = 61 then
            if rest = [] ∧ v3 % 4 = 0 then
              some [v1 * 4 + v2 / 16, (v2 % 16) * 16 + v3 / 4]
            else none
          else
            match b64val c4 with
            | some v4 =>
              (b64DecodeAux rest).map
                (fun t => (v1 * 4 + v2 / 16) :: ((v2 % 16) * 16 + v3 / 4) ::
                          ((v3 % 4) * 64 + v4) :: t)
            | none => none
        | none => none
    | _, _ => none
  | _ => none

/-- `STANDARD.decode`: the input length must be a multiple of four
(anything else, e.g. the 5-byte segment cache, is an `InvalidLength`
error), then canonical quad decoding. -/
def b64Decode (l : List Nat) : Option (List Nat) :=
  if l.length % 4 = 0 then b64DecodeAux l else none

/- ======================  UTF-8 validity  ====================== -/

/-- UTF-8 continuation byte. -/
def isCont (b : Nat) : Bool := decide (128 ≤ b ∧ b ≤ 191)

/-- RFC 3629 UTF-8 validity of a byte sequence, as checked by
`String::from_utf8` on the base64-decoded segment. -/
def utf8Valid : List Nat → Bool
  | [] => true
  | b :: r =>
    if b ≤ 127 then utf8Valid r
    else if 194 ≤ b ∧ b ≤ 223 then
      match r with
      | c :: r2 => isCont c && utf8Valid r2
      | [] => false
    else if 224 ≤ b ∧ b ≤ 239 then
      match r with
      | c :: d :: r2 =>
        (if b = 224 then decide (160 ≤ c ∧ c ≤ 191)
         else if b = 237 then decide (128 ≤ c ∧ c ≤ 159)
         else isCont c) && isCont d && utf8Valid r2
      | _ => false
    else if 240 ≤ b ∧ b ≤ 244 then
      match r with
      | c :: d :: e :: r2 =>
        (if b = 240 then decide (144 ≤ c ∧ c ≤ 191)
         else if b = 244 then decide (128 ≤ c ∧ c ≤ 143)
         else isCont c) && isCont d && isCont e && utf8Valid r2
      | _ => false
    else false

/- ======================  paths  ====================== -/

/-- `str::trim_matches('/')`: drop leading and trailing `/`(47) bytes. -/
def trimSlashes (l : List Nat) : List Nat :=
  ((l.dropWhile (fun b => b == 47)).reverse.dropWhile (fun b => b == 47)).reverse

/-- Join nonempty segments with `/`. -/
def joinSlash : List (List Nat) → List Nat
  | [] => []
  | [x] => x
  | x :: xs => x ++ 47 :: joinSlash xs

/-- `path_from_segments` (optimizer.rs lines 563-572): trim each part's
slashes, drop empty parts, join the rest with `/`. -/
def path_from_segments (parts : List (List Nat)) : List Nat :=
  joinSlash ((parts.map trimSlashes).filter (fun t => !t.isEmpty))

/-- Length of the prefix of `p` up to and including its last `/`(47)
(0 when `p` has no slash) — the directory part for `set_extension`. -/
def dirLenFn (p : List Nat) : Nat :=
  p.length - (p.reverse.takeWhile (fun b => b != 47)).length

/-- `PathBuf::set_extension(ext)`: within the file name (the part after
the last `/`), the extension — the part after the last `.`(46) that is not
the file name's first byte — is replaced by `ext`; a file name with no
such dot gets `.ext` appended. -/
def set_extension (p ext : List Nat) : List Nat :=
  let dl := dirLenFn p
  let fname := p.drop dl
  let tl := (fname.reverse.takeWhile (fun b => b != 46)).length
  let stem :=
    if tl < fname.length ∧ 1 ≤ fname.length - tl - 1 then
      fname.take (fname.length - tl - 1)
    else fname
  p.take dl ++ stem ++ 46 :: ext

/-- ASCII bytes of cache. -/
def cacheSeg : List Nat := [99, 97, 99, 104, 101]

/-- ASCII bytes of image. -/
def imageSeg : List Nat := [105, 109, 97, 103, 101]

/-- Output extension: webp for `Resize`, svg for `Blur`
(optimizer.rs lines 515-518). -/
def extBytes : CachedImageOption → List Nat
  | .Resize _ => [119, 101, 98, 112]
  | .Blur _ => [115, 118, 103]

/-- `CachedImage::get_file_path` (optimizer.rs lines 509-520):
`cache/image/<base64(query string)>/<src>` with the extension set to
`webp` or `svg`. -/
def CachedImage.get_file_path (img : CachedImage) : List Nat :=
  set_extension
    (path_from_segments [cacheSeg, imageSeg, b64Encode (qsEncode img), img.src])
    (extBytes img.option)

/-- The per-segment loop body of `from_file_path`: note that a segment
that fails to base64-decode, or whose decoding is not UTF-8, aborts the
whole scan with `None` (the `.ok()?` on lines 530-531), while only a
segment that decodes but does not parse as a query string falls through to
the next segment. -/
def fromSegs : List (List Nat) → Option CachedImage
  | [] => none
  | p :: rest =>
    match b64Decode p with
    | none => none
    | some bytes =>
      if utf8Valid bytes then
        match qsDecode bytes with
        | some ci => some ci
        | none => fromSegs rest
      else none

/-- `CachedImage::from_file_path` (optimizer.rs lines 526-537): split the
path on `/` and run the segment loop. -/
def CachedImage.from_file_path (path : List Nat) : Option CachedImage :=
  fromSegs (splitOnByte 47 path)

/-- `CachedImage::get_url_encoded` (lines 502-505):
`<handler_path>?<query string>`. -/
def CachedImage.get_url_encoded (img : CachedImage) (handler : List Nat) : List Nat :=
  handler ++ 63 :: qsEncode img

/-- `CachedImage::from_url_encoded` (lines 540-543):
`url.split('?').nth(1).unwrap_or(url)` then `serde_qs::from_str`. -/
def CachedImage.from_url_encoded (url : List Nat) : Option CachedImage :=
  let parts := splitOnByte 63 url
  qsDecode (match parts.get? 1 with
            | some q => q
            | none => url)

/- ======================  optimizer state model  ====================== -/

/-- The configuration fields of `ImageOptimizer` (optimizer.rs lines
38-57) that the sequential operations read; the shared maps and the
semaphore are modelled separately where a claim needs them. -/
structure OptConfig where
  api_handler_path : List Nat
  root_file_path : List Nat
  no_upscale : Bool
  blur_ttl_seconds : Option Nat

/-- Filesystem model: association list from path bytes to content bytes;
the first binding for a path wins, so consing is an overwriting write. -/
abbrev FS := List (List Nat × List Nat)

/-- First content bound to `p`. `some` also models a successful
`tokio::fs::metadata` / `Path::exists` probe. -/
def fsLookup (fs : FS) (p : List Nat) : Option (List Nat) :=
  match fs with
  | [] => none
  | (q, c) :: rest => if q = p then some c else fsLookup rest p

/-- `CreateImageError` (optimizer.rs lines 550-559). -/
inductive CreateImageError where
  | ImageError
  | JoinError
  | IOError
  | Acquire
deriving DecidableEq, Repr

/-- `ImageOptimizer::maybe_clamp` (optimizer.rs lines 293-333), with
`dims` the `image::open`-plus-`dimensions` oracle. Mirrors the source
branch for branch: upscaling allowed or a `Blur` request or a missing or
zero-length source proceeds unchanged; a source that exists but does not
decode propagates the `image::open` error (the `?` on line 314); a decoded
source clamps each dimension independently with `min`. -/
def maybe_clamp (cfg : OptConfig) (dims : List Nat → Option (Nat × Nat))
    (fs : FS) (img : CachedImage) : Except CreateImageError (Option CachedImage) :=
  if ¬ cfg.no_upscale then .ok (some img)
  else
    match img.option with
    | .Blur _ => .ok (some img)
    | .Resize r =>
      match fsLookup fs (path_from_segments [cfg.root_file_path, img.src]) with
      | none => .ok (some img)
      | some bytes =>
        if bytes.length = 0 then .ok (some img)
        else
          match dims bytes with
          | none => .error .ImageError
          | some (ow, oh) =>
            if r.width ≤ ow ∧ r.height ≤ oh then .ok (some img)
            else .ok (some ⟨img.src, .Resize ⟨min r.width ow, min r.height oh, r.quality⟩⟩)

/-- Sequential (single-caller) semantics of `ImageOptimizer::create_image`
(optimizer.rs lines 183-257): clamp, build the final path under the root,
short-circuit on an existing file, otherwise run
`create_optimized_image` — which opens the source at the *raw* `src` field
(line 235 passes `final_image_clone.src`, not the root-joined path),
fails when it is absent or undecodable, and writes the encoded output.
In a single-caller run the `in_flight` map is empty on entry, and the
entry inserted on line 222 is removed again on line 250 before returning,
so the dedup map is elided here (the concurrent map mechanics are modelled
separately for the dedup claim). -/
def create_image (cfg : OptConfig) (dims : List Nat → Option (Nat × Nat))
    (enc : CachedImageOption → List Nat → List Nat)
    (fs : FS) (img : CachedImage) : Except CreateImageError (Bool × FS) :=
  match maybe_clamp cfg dims fs img with
  | .error e => .error e
  | .ok none => .ok (false, fs)
  | .ok (some fi) =>
    let final_path := path_from_segments [cfg.root_file_path, fi.get_file_path]
    if (fsLookup fs final_path).isSome then .ok (false, fs)
    else
      match fsLookup fs fi.src with
      | none => .error .ImageError
      | some srcBytes =>
        match dims srcBytes with
        | none => .error .ImageError
        | some _ => .ok (true, (final_path, enc fi.option srcBytes) :: fs)

/- ======================  blur cache  ====================== -/

/-- `BlurEntry` (optimizer.rs lines 26-31); `created_at` in seconds. -/
structure BlurEntry where
  svg_data : List Nat
  created_at : Int
deriving DecidableEq, Repr

/-- Two's-complement reading of a `u64` as `i64` (`ttl as i64`,
optimizer.rs line 269). -/
def toI64 (n : Nat) : Int :=
  if n % 18446744073709551616 < 9223372036854775808 then (n % 18446744073709551616 : Int)
  else (n % 18446744073709551616 : Int) - 18446744073709551616

/-- The blur cache: association list from descriptor to entry (DashMap
keys are unique; first binding wins). -/
abbrev BlurCache := List (CachedImage × BlurEntry)

/-- `DashMap::get`. -/
def lookupBlur (img : CachedImage) : BlurCache → Option BlurEntry
  | [] => none
  | (k, e) :: rest => if k = img then some e else lookupBlur img rest

/-- Outcome of one `get_blur` call: either the function returns, carrying
the result and the cache contents after the call, or it blocks forever. -/
inductive GetBlurResult where
  | ret (result : Option (List Nat)) (cache : BlurCache)
  | deadlock
deriving DecidableEq, Repr

/-- `ImageOptimizer::get_blur` (optimizer.rs lines 261-275) at time
`now`. A miss returns `none` with no side effect; a hit with no TTL
configured, or whose age does not exceed the TTL, returns the stored SVG
and leaves the cache unchanged. On a hit whose age strictly exceeds the
TTL the code reaches `self.blur_cache.remove(image)` on line 270 while
the dashmap `Ref` guard bound on line 265 is still live (it has a `Drop`
impl, so it is dropped only at the end of the function, and it is read on
line 268): the guard holds the read lock on the key's shard, `remove`
requests the same shard's write lock, and the call blocks forever — the
self-deadlock DashMap documents for calls made while holding a reference
into the map. That path never removes the entry and never returns. -/
def get_blur (cfg : OptConfig) (cache : BlurCache) (now : Int)
    (img : CachedImage) : GetBlurResult :=
  match lookupBlur img cache with
  | none => .ret none cache
  | some e =>
    match cfg.blur_ttl_seconds with
    | some ttl =>
      if now - e.created_at > toI64 ttl then .deadlock
      else .ret (some e.svg_data) cache
    | none => .ret (some e.svg_data) cache

/- ======================  preload_disk_cache  ====================== -/

/-- `Path::join` on byte paths (relative right operand). -/
def pathJoin (a b : List Nat) : List Nat :=
  if a.isEmpty then b
  else if a.getLast? = some 47 then a ++ b else a ++ 47 :: b

/-- The extension of a path per `Path::extension`: the part of the file
name after its last dot, where a dot in first position does not count. -/
def pathExtension (p : List Nat) : Option (List Nat) :=
  let fname := p.drop (dirLenFn p)
  let tl := (fname.reverse.takeWhile (fun b => b != 46)).length
  if tl < fname.length ∧ 1 ≤ fname.length - tl - 1 then
    some (fname.drop (fname.length - tl))
  else none

/-- The immediate child names of directory `dir` in a filesystem given by
its file list — what `tokio::fs::read_dir` iterates (both plain files and
subdirectories appear once). -/
def readDirEntries (fs : FS) (dir : List Nat) : List (List Nat) :=
  ((fs.map Prod.fst).filterMap (fun p =>
    if (dir ++ [47]).take (dir.length + 1) = (p.take (dir.length + 1)) ∧
        dir.length + 1 ≤ p.length then
      some ((p.drop (dir.length + 1)).takeWhile (fun b => b != 47))
    else none)).dedup

/-- `Path::exists` for a directory in the file-list model: some file is
the path itself or lies strictly below it. -/
def dirExists (fs : FS) (dir : List Nat) : Bool :=
  (fs.map Prod.fst).any (fun p =>
    p == dir || (dir ++ [47]).take (dir.length + 1) == p.take (dir.length + 1) &&
      decide (dir.length + 1 ≤ p.length))

/-- `ImageOptimizer::preload_disk_cache` (optimizer.rs lines 127-160) at
time `now`: a no-op when `<root>/cache/image` does not exist; otherwise a
single-level `read_dir` of that directory — NOT a recursive walk — keeping
only entries whose extension is `svg`, decoding each such entry's path via
`from_file_path`, reading its content (reading a directory fails and is
skipped), and inserting into the blur cache with `created_at = now`. -/
def preload_disk_cache (cfg : OptConfig) (fs : FS) (now : Int)
    (cache : BlurCache) : BlurCache :=
  let cache_dir := pathJoin (pathJoin cfg.root_file_path cacheSeg) imageSeg
  if ¬ dirExists fs cache_dir then cache
  else
    (readDirEntries fs cache_dir).foldl (fun c name =>
      let p := pathJoin cache_dir name
      if pathExtension p = some [115, 118, 103] then
        match CachedImage.from_file_path p with
        | some cached =>
          match fsLookup fs p with
          | some content => (cached, ⟨content, now⟩) :: c
          | none => c
        | none => c
      else c) cache

/- ======================  concurrency dedup model  ====================== -/

/-- Global shared state for two concurrent `create_image` calls on one
descriptor whose file is not yet on disk. `inFlight` holds the slot id
currently mapped under the descriptor in the `in_flight` DashMap (`none`
when the key is absent); `handleStored` records the slots whose
`Mutex<Option<JoinHandle>>` already holds `Some` (line 241); `completed`
records slots whose blocking task has finished; `spawns` counts
`spawn_blocking` executions of the transform pipeline; `permits` is the
semaphore. -/
structure DedupState where
  diskFile : Bool
  inFlight : Option Nat
  handleStored : List Nat
  completed : List Nat
  spawns : Nat
  permits : Nat
  nextSlot : Nat
deriving DecidableEq, Repr

/-- Program counter of one `create_image` caller, cut at the genuine
suspension points of the source (the `file_exists` await on line 200, the
`acquire_owned` await on line 225, the final `JoinHandle` await). -/
inductive DedupPC where
  | start
  | checkedDisk
  | inserted (slot : Nat)
  | spawned (slot : Nat)
  | waiting (slot : Nat)
  | done (created : Option Bool)
deriving DecidableEq, Repr

/-- One atomic step of one caller, mirroring lines 183-257 for a
descriptor with `no_upscale` irrelevant (clamp passes through):
* `start`: the disk existence check (line 200);
* `checkedDisk`: the `in_flight.get` (line 205) — if an entry exists and
  its handle is stored the caller attaches as a waiter; if the entry's
  mutex still holds `None` the caller falls through the `if let` (lines
  209-218) and, like a caller that found no entry, inserts a fresh slot,
  overwriting the map entry (lines 221-222);
* `inserted`: the semaphore acquire (line 225) followed by
  `spawn_blocking` and storing the handle (lines 232-242);
* `spawned`: the producer's await of its own task: the pipeline writes the
  file, the permit is released, the entry is removed (line 250), `Ok(true)`;
* `waiting`: the waiter's await of the stored handle (line 211),
  completing once the task has, with `Ok(true)` (line 215). -/
def dedupStep (st : DedupState) (pc : DedupPC) : DedupState × DedupPC :=
  match pc with
  | .start => if st.diskFile then (st, .done (some false)) else (st, .checkedDisk)
  | .checkedDisk =>
    match st.inFlight with
    | some s =>
      if st.handleStored.contains s then (st, .waiting s)
      else ({ st with inFlight := some st.nextSlot, nextSlot := st.nextSlot + 1 },
            .inserted st.nextSlot)
    | none =>
      ({ st with inFlight := some st.nextSlot, nextSlot := st.nextSlot + 1 },
       .inserted st.nextSlot)
  | .inserted s =>
    if 0 < st.permits then
      ({ st with permits := st.permits - 1, spawns := st.spawns + 1,
                 handleStored := s :: st.handleStored }, .spawned s)
    else (st, .inserted s)
  | .spawned s =>
    ({ st with diskFile := true, completed := s :: st.completed,
               inFlight := none, permits := st.permits + 1 }, .done (some true))
  | .waiting s =>
    if st.completed.contains s then (st, .done (some true)) else (st, .waiting s)
  | .done r => (st, .done r)

/-- Run a schedule over two callers A (`false`) and B (`true`): each
schedule item lets the named caller take one step. -/
def dedupRun (sched : List Bool) (init : DedupState × DedupPC × DedupPC) :
    DedupState × DedupPC × DedupPC :=
  sched.foldl (fun sys who =>
    if who then
      let r := dedupStep sys.1 sys.2.2
      (r.1, sys.2.1, r.2)
    else
      let r := dedupStep sys.1 sys.2.1
      (r.1, r.2, sys.2.2)) init

/-- Both callers at the entry of `create_image`, no file on disk, empty
`in_flight` map, semaphore capacity 4 (any capacity ≥ 2 behaves the same
here). -/
def dedupInit : DedupState × DedupPC × DedupPC :=
  (⟨false, none, [], [], 0, 4, 0⟩, .start, .start)

/-- Machine-range side conditions of the Rust field types (`u32`/`u8`)
that serde_qs enforces when deserializing. -/
def imgBounds (img : CachedImage) : Prop :=
  match img.option with
  | .Resize r => r.width < 4294967296 ∧ r.height < 4294967296 ∧ r.quality < 256
  | .Blur b => b.width < 4294967296 ∧ b.height < 4294967296 ∧
      b.svg_width < 4294967296 ∧ b.svg_height < 4294967296 ∧ b.sigma < 256

/- ======================  helper lemmas: percent-coding  ====================== -/

theorem isUnres_ranges {b : Nat} (h : isUnres b = true) :
    (48 ≤ b ∧ b ≤ 57) ∨ (65 ≤ b ∧ b ≤ 90) ∨ (97 ≤ b ∧ b ≤ 122) ∨
      b = 42 ∨ b = 45 ∨ b = 46 ∨ b = 95 := by
  unfold isUnres at h
  split at h
  · assumption
  · simp at h

theorem isUnres_of_digit {b : Nat} (h1 : 48 ≤ b) (h2 : b ≤ 57) : isUnres b = true := by
  unfold isUnres
  rw [if_pos]
  exact Or.inl ⟨h1, h2⟩

theorem hexVal_hexDig : ∀ v : Nat, v < 16 → hexVal (hexDig v) = some v := by decide

theorem isUnres_hexDig : ∀ v : Nat, v < 16 → isUnres (hexDig v) = true := by decide

theorem pctEncode_nil : pctEncode [] = [] := rfl

theorem pctEncode_cons (b : Nat) (l : List Nat) :
    pctEncode (b :: l) = pctEncodeByte b ++ pctEncode l := by
  simp [pctEncode]

theorem pctEncode_len (l : List Nat) : l.length ≤ (pctEncode l).length := by
  induction l with
  | nil => simp [pctEncode]
  | cons b t ih =>
    rw [pctEncode_cons]
    have hb : 1 ≤ (pctEncodeByte b).length := by
      unfold pctEncodeByte
      split <;> simp
    simp only [List.length_append, List.length_cons]
    omega

theorem pctEncode_mem {l : List Nat} (hl : ∀ b ∈ l, b < 256) :
    ∀ x ∈ pctEncode l, x = 37 ∨ isUnres x = true := by
  induction l with
  | nil => simp [pctEncode]
  | cons b t ih =>
    intro x hx
    rw [pctEncode_cons] at hx
    rcases List.mem_append.mp hx with hx1 | hx2
    · unfold pctEncodeByte at hx1
      split at hx1
      · rename_i hu
        rcases List.mem_singleton.mp hx1 with rfl
        exact Or.inr hu
      · have hb : b < 256 := hl b (List.mem_cons_self b t)
        rcases List.mem_cons.mp hx1 with rfl | hx1
        · exact Or.inl rfl
        rcases List.mem_cons.mp hx1 with rfl | hx1
        · exact Or.inr (isUnres_hexDig _ (by omega))
        rcases List.mem_cons.mp hx1 with rfl | hx1
        · exact Or.inr (isUnres_hexDig _ (by omega))
        · simp at hx1
    · exact ih (fun c hc => hl c (List.mem_cons_of_mem b hc)) x hx2

theorem pctDecode_plain {b : Nat} (h43 : b ≠ 43) (h37 : b ≠ 37) (l : List Nat) :
    pctDecode (b :: l) = (pctDecode l).map (fun t => b :: t) := by
  conv_lhs => unfold pctDecode
  rw [if_neg h43, if_neg h37]

theorem pctDecode_pctEncode {l : List Nat} (hl : ∀ b ∈ l, b < 256) :
    pctDecode (pctEncode l) = some l := by
  induction l with
  | nil => rfl
  | cons b t ih =>
    have hb : b < 256 := hl b (List.mem_cons_self b t)
    have iht := ih (fun c hc => hl c (List.mem_cons_of_mem b hc))
    rw [pctEncode_cons]
    unfold pctEncodeByte
    by_cases hu : isUnres b = true
    · rw [if_pos hu]
      have h43 : b ≠ 43 := by rcases isUnres_ranges hu with h | h | h | h | h | h | h <;> omega
      have h37 : b ≠ 37 := by rcases isUnres_ranges hu with h | h | h | h | h | h | h <;> omega
      rw [List.singleton_append, pctDecode_plain h43 h37, iht]
      rfl
    · rw [if_neg hu]
      show pctDecode (37 :: hexDig (b / 16) :: hexDig (b % 16) :: pctEncode t) = some (b :: t)
      have hd1 : hexVal (hexDig (b / 16)) = some (b / 16) := hexVal_hexDig _ (by omega)
      have hd2 : hexVal (hexDig (b % 16)) = some (b % 16) := hexVal_hexDig _ (by omega)
      conv_lhs => unfold pctDecode
      rw [if_neg (by omega : ¬(37 : Nat) = 43), if_pos rfl]
      change (match hexVal (hexDig (b / 16)), hexVal (hexDig (b % 16)) with
              | some hv, some lv =>
                Option.map (fun tl => (hv * 16 + lv) :: tl) (pctDecode (pctEncode t))
              | _, _ => none) = some (b :: t)
      rw [hd1, hd2]
      show (pctDecode (pctEncode t)).map (fun tl => (b / 16 * 16 + b % 16) :: tl) = some (b :: t)
      rw [iht]
      have hbe : b / 16 * 16 + b % 16 = b := by omega
      simp only [hbe]
      rfl

theorem pctDecode_digits {l : List Nat} (h : ∀ b ∈ l, 48 ≤ b ∧ b ≤ 57) :
    pctDecode l = some l := by
  induction l with
  | nil => rfl
  | cons b t ih =>
    have hb := h b (List.mem_cons_self b t)
    rw [pctDecode_plain (by omega) (by omega),
        ih (fun c hc => h c (List.mem_cons_of_mem b hc))]
    rfl

/- ======================  helper lemmas: decimal numbers  ====================== -/

theorem natEncAux_digits : ∀ fuel n : Nat, ∀ b ∈ natEncAux fuel n, 48 ≤ b ∧ b ≤ 57 := by
  intro fuel
  induction fuel with
  | zero => intro n b hb; simp [natEncAux] at hb
  | succ f ih =>
    intro n b hb
    unfold natEncAux at hb
    split at hb
    · simp at hb
    · rcases List.mem_append.mp hb with h1 | h2
      · exact ih _ b h1
      · rcases List.mem_singleton.mp h2 with rfl
        have : n % 10 < 10 := Nat.mod_lt _ (by omega)
        omega

theorem natEnc_digits (n : Nat) : ∀ b ∈ natEnc n, 48 ≤ b ∧ b ≤ 57 := by
  unfold natEnc
  split
  · intro b hb; rcases List.mem_singleton.mp hb with rfl; omega
  · exact natEncAux_digits n n

theorem natEncAux_ne_nil {fuel n : Nat} (h : n ≠ 0) (hf : n ≤ fuel) :
    natEncAux fuel n ≠ [] := by
  cases fuel with
  | zero => omega
  | succ f =>
    unfold natEncAux
    rw [if_neg h]
    simp

theorem natEnc_ne_nil (n : Nat) : natEnc n ≠ [] := by
  unfold natEnc
  split
  · simp
  · exact natEncAux_ne_nil (by assumption) le_rfl

theorem natEncAux_foldl : ∀ fuel n acc : Nat, n ≤ fuel →
    (natEncAux fuel n).foldl (fun a b => a * 10 + (b - 48)) acc =
      acc * 10 ^ (natEncAux fuel n).length + n := by
  intro fuel
  induction fuel with
  | zero =>
    intro n acc h
    have : n = 0 := by omega
    subst this
    simp [natEncAux]
  | succ f ih =>
    intro n acc h
    unfold natEncAux
    split
    · rename_i h0; subst h0; simp
    · rename_i h0
      have hle : n / 10 ≤ f := by
        have : n / 10 < n := Nat.div_lt_self (by omega) (by omega)
        omega
      rw [List.foldl_append, ih (n / 10) acc hle]
      simp only [List.foldl_cons, List.foldl_nil, List.length_append,
        List.length_singleton]
      have hd : n % 10 + 48 - 48 = n % 10 := by omega
      rw [hd, pow_succ]
      have := Nat.div_add_mod n 10
      ring_nf
      omega

theorem parseNatBytes_natEnc (n : Nat) : parseNatBytes (natEnc n) = some n := by
  unfold parseNatBytes
  rw [if_neg (by simpa using natEnc_ne_nil n)]
  rw [if_pos]
  · unfold natEnc
    split
    · rename_i h0; subst h0; rfl
    · rename_i h0
      rw [natEncAux_foldl n n 0 le_rfl]
      simp
  · rw [List.all_eq_true]
    intro b hb
    exact decide_eq_true (natEnc_digits n b hb)

/- ======================  helper lemmas: splitting  ====================== -/

theorem splitOnByte_ne_nil (c : Nat) (l : List Nat) : splitOnByte c l ≠ [] := by
  cases l with
  | nil => simp [splitOnByte]
  | cons b t =>
    unfold splitOnByte
    split
    · split <;> simp
    · split <;> simp

theorem splitOnByte_not_mem {c : Nat} {l : List Nat} (h : c ∉ l) :
    splitOnByte c l = [l] := by
  induction l with
  | nil => rfl
  | cons b t ih =>
    have hbc : b ≠ c := fun he => h (he ▸ List.mem_cons_self b t)
    have ht : c ∉ t := fun hm => h (List.mem_cons_of_mem b hm)
    conv_lhs => unfold splitOnByte
    rw [ih ht]
    simp [hbc]

theorem splitOnByte_append {c : Nat} {a b : List Nat} (h : c ∉ a) :
    splitOnByte c (a ++ c :: b) = a :: splitOnByte c b := by
  induction a with
  | nil =>
    simp only [List.nil_append]
    conv_lhs => unfold splitOnByte
    obtain ⟨s, ss, hs⟩ : ∃ s ss, splitOnByte c b = s :: ss := by
      cases hsb : splitOnByte c b with
      | nil => exact absurd hsb (splitOnByte_ne_nil c b)
      | cons s ss => exact ⟨s, ss, rfl⟩
    rw [hs]
    simp
  | cons x a' ih =>
    have hxc : x ≠ c := fun he => h (he ▸ List.mem_cons_self x a')
    have ha' : c ∉ a' := fun hm => h (List.mem_cons_of_mem x hm)
    simp only [List.cons_append]
    conv_lhs => unfold splitOnByte
    rw [ih ha']
    simp [hxc]

theorem splitFirstAt_append {c : Nat} {k v : List Nat} (h : c ∉ k) :
    splitFirstAt c (k ++ c :: v) = (k, v) := by
  induction k with
  | nil =>
    simp only [List.nil_append]
    unfold splitFirstAt
    simp
  | cons x k' ih =>
    have hxc : x ≠ c := fun he => h (he ▸ List.mem_cons_self x k')
    have hk' : c ∉ k' := fun hm => h (List.mem_cons_of_mem x hm)
    simp only [List.cons_append]
    conv_lhs => unfold splitFirstAt
    rw [if_neg hxc, ih hk']

theorem parsePair_piece {k v dk dv : List Nat} (hk : (61 : Nat) ∉ k)
    (hdk : pctDecode k = some dk) (hdv : pctDecode v = some dv) :
    parsePair (k ++ 61 :: v) = some (dk, dv) := by
  unfold parsePair
  rw [splitFirstAt_append hk]
  simp [hdk, hdv]

/- ======================  helper lemmas: query round-trip  ====================== -/

theorem natEnc_no38 (n : Nat) : (38 : Nat) ∉ natEnc n := by
  intro hm
  have := natEnc_digits n 38 hm
  omega

theorem natEnc_no61 (n : Nat) : (61 : Nat) ∉ natEnc n := by
  intro hm
  have := natEnc_digits n 61 hm
  omega

theorem pctEncode_no38 {l : List Nat} (hl : ∀ b ∈ l, b < 256) :
    (38 : Nat) ∉ pctEncode l := by
  intro hm
  rcases pctEncode_mem hl 38 hm with h | h
  · omega
  · simp [isUnres] at h

theorem pctEncode_no61 {l : List Nat} (hl : ∀ b ∈ l, b < 256) :
    (61 : Nat) ∉ pctEncode l := by
  intro hm
  rcases pctEncode_mem hl 61 hm with h | h
  · omega
  · simp [isUnres] at h

theorem no38_piece {k v : List Nat} (hk : (38 : Nat) ∉ k) (hv : (38 : Nat) ∉ v) :
    (38 : Nat) ∉ k ++ 61 :: v := by
  intro hm
  rcases List.mem_append.mp hm with hm | hm
  · exact hk hm
  · rcases List.mem_cons.mp hm with hm | hm
    · exact absurd hm (by decide)
    · exact hv hm

theorem mapOpt_nil (f : α → Option β) : mapOpt [] f = some [] := rfl

theorem mapOpt_cons_some {f : α → Option β} {a : α} {b : β} {l : List α}
    {bs : List β} (ha : f a = some b) (hl : mapOpt l f = some bs) :
    mapOpt (a :: l) f = some (b :: bs) := by
  unfold mapOpt
  rw [ha, hl]

theorem qsDecodePairs_resize (src : List Nat) (w h q : Nat)
    (hw : w < 4294967296) (hh : h < 4294967296) (hq : q < 256) :
    qsDecodePairs [(kSrc, src), (dRW, natEnc w), (dRH, natEnc h), (dRQ, natEnc q)] =
      some ⟨src, .Resize ⟨w, h, q⟩⟩ := by
  unfold qsDecodePairs
  simp +decide only [findVal, if_true, if_false, List.length_cons, List.length_nil,
    parseNatBytes_natEnc]
  rw [if_pos ⟨hw, hh, hq⟩]

theorem qsDecodePairs_blur (src : List Nat) (w h sw sh sg : Nat)
    (hw : w < 4294967296) (hh : h < 4294967296) (hsw : sw < 4294967296)
    (hsh : sh < 4294967296) (hsg : sg < 256) :
    qsDecodePairs [(kSrc, src), (dBW, natEnc w), (dBH, natEnc h),
        (dBSW, natEnc sw), (dBSH, natEnc sh), (dBS, natEnc sg)] =
      some ⟨src, .Blur ⟨w, h, sw, sh, sg⟩⟩ := by
  unfold qsDecodePairs
  simp +decide only [findVal, if_true, if_false, List.length_cons, List.length_nil,
    parseNatBytes_natEnc]
  rw [if_pos ⟨hw, hh, hsw, hsh, hsg⟩]

theorem qsDecode_qsEncode (img : CachedImage) (hsrc : ∀ b ∈ img.src, b < 256)
    (hb : imgBounds img) : qsDecode (qsEncode img) = some img := by
  obtain ⟨src, opt⟩ := img
  cases opt with
  | Resize r =>
    obtain ⟨w, h, q⟩ := r
    obtain ⟨hw, hh, hq⟩ := hb
    have hqs : qsEncode ⟨src, .Resize ⟨w, h, q⟩⟩ =
        (kSrc ++ 61 :: pctEncode src) ++ 38 ::
          ((kRW ++ 61 :: natEnc w) ++ 38 ::
            ((kRH ++ 61 :: natEnc h) ++ 38 :: (kRQ ++ 61 :: natEnc q))) := by
      simp [qsEncode]
    have hsplit : splitOnByte 38 (qsEncode ⟨src, .Resize ⟨w, h, q⟩⟩) =
        [kSrc ++ 61 :: pctEncode src, kRW ++ 61 :: natEnc w,
         kRH ++ 61 :: natEnc h, kRQ ++ 61 :: natEnc q] := by
      rw [hqs, splitOnByte_append (no38_piece (by decide) (pctEncode_no38 hsrc)),
          splitOnByte_append (no38_piece (by decide) (natEnc_no38 w)),
          splitOnByte_append (no38_piece (by decide) (natEnc_no38 h)),
          splitOnByte_not_mem (no38_piece (by decide) (natEnc_no38 q))]
    have hmap : mapOpt (splitOnByte 38 (qsEncode ⟨src, .Resize ⟨w, h, q⟩⟩)) parsePair =
        some [(kSrc, src), (dRW, natEnc w), (dRH, natEnc h), (dRQ, natEnc q)] := by
      rw [hsplit]
      exact mapOpt_cons_some
        (parsePair_piece (by decide) (by decide) (pctDecode_pctEncode hsrc))
        (mapOpt_cons_some
          (parsePair_piece (by decide) (by decide) (pctDecode_digits (natEnc_digits w)))
          (mapOpt_cons_some
            (parsePair_piece (by decide) (by decide) (pctDecode_digits (natEnc_digits h)))
            (mapOpt_cons_some
              (parsePair_piece (by decide) (by decide) (pctDecode_digits (natEnc_digits q)))
              (mapOpt_nil _))))
    unfold qsDecode
    rw [hmap]
    exact qsDecodePairs_resize src w h q hw hh hq
  | Blur b =>
    obtain ⟨w, h, sw, sh, sg⟩ := b
    obtain ⟨hw, hh, hsw, hsh, hsg⟩ := hb
    have hqs : qsEncode ⟨src, .Blur ⟨w, h, sw, sh, sg⟩⟩ =
        (kSrc ++ 61 :: pctEncode src) ++ 38 ::
          ((kBW ++ 61 :: natEnc w) ++ 38 ::
            ((kBH ++ 61 :: natEnc h) ++ 38 ::
              ((kBSW ++ 61 :: natEnc sw) ++ 38 ::
                ((kBSH ++ 61 :: natEnc sh) ++ 38 :: (kBS ++ 61 :: natEnc sg))))) := by
      simp [qsEncode]
    have hsplit : splitOnByte 38 (qsEncode ⟨src, .Blur ⟨w, h, sw, sh, sg⟩⟩) =
        [kSrc ++ 61 :: pctEncode src, kBW ++ 61 :: natEnc w, kBH ++ 61 :: natEnc h,
         kBSW ++ 61 :: natEnc sw, kBSH ++ 61 :: natEnc sh, kBS ++ 61 :: natEnc sg] := by
      rw [hqs, splitOnByte_append (no38_piece (by decide) (pctEncode_no38 hsrc)),
          splitOnByte_append (no38_piece (by decide) (natEnc_no38 w)),
          splitOnByte_append (no38_piece (by decide) (natEnc_no38 h)),
          splitOnByte_append (no38_piece (by decide) (natEnc_no38 sw)),
          splitOnByte_append (no38_piece (by decide) (natEnc_no38 sh)),
          splitOnByte_not_mem (no38_piece (by decide) (natEnc_no38 sg))]
    have hmap : mapOpt (splitOnByte 38 (qsEncode ⟨src, .Blur ⟨w, h, sw, sh, sg⟩⟩)) parsePair =
        some [(kSrc, src), (dBW, natEnc w), (dBH, natEnc h),
              (dBSW, natEnc sw), (dBSH, natEnc sh), (dBS, natEnc sg)] := by
      rw [hsplit]
      exact mapOpt_cons_some
        (parsePair_piece (by decide) (by decide) (pctDecode_pctEncode hsrc))
        (mapOpt_cons_some
          (parsePair_piece (by decide) (by decide) (pctDecode_digits (natEnc_digits w)))
          (mapOpt_cons_some
            (parsePair_piece (by decide) (by decide) (pctDecode_digits (natEnc_digits h)))
            (mapOpt_cons_some
              (parsePair_piece (by decide) (by decide) (pctDecode_digits (natEnc_digits sw)))
              (mapOpt_cons_some
                (parsePair_piece (by decide) (by decide) (pctDecode_digits (natEnc_digits sh)))
                (mapOpt_cons_some
                  (parsePair_piece (by decide) (by decide) (pctDecode_digits (natEnc_digits sg)))
                  (mapOpt_nil _))))))
    unfold qsDecode
    rw [hmap]
    exact qsDecodePairs_blur src w h sw sh sg hw hh hsw hsh hsg

theorem no63_append {a b : List Nat} (ha : (63 : Nat) ∉ a) (hb : (63 : Nat) ∉ b) :
    (63 : Nat) ∉ a ++ b := fun hm => (List.mem_append.mp hm).elim ha hb

theorem no63_cons {c : Nat} {b : List Nat} (hc : c ≠ 63) (hb : (63 : Nat) ∉ b) :
    (63 : Nat) ∉ c :: b := by
  intro hm
  rcases List.mem_cons.mp hm with hm | hm
  · exact hc hm.symm
  · exact hb hm

theorem no63_kv {k v : List Nat} (hk : (63 : Nat) ∉ k) (hv : (63 : Nat) ∉ v) :
    (63 : Nat) ∉ k ++ 61 :: v :=
  no63_append hk (no63_cons (by decide) hv)

theorem natEnc_no63 (n : Nat) : (63 : Nat) ∉ natEnc n := by
  intro hm
  have := natEnc_digits n 63 hm
  omega

theorem qsEncode_no63 (img : CachedImage) (hsrc : ∀ b ∈ img.src, b < 256) :
    (63 : Nat) ∉ qsEncode img := by
  obtain ⟨src, opt⟩ := img
  have hpct : (63 : Nat) ∉ pctEncode src := by
    intro hm
    rcases pctEncode_mem hsrc 63 hm with hx | hx
    · omega
    · simp [isUnres] at hx
  cases opt with
  | Resize r =>
    obtain ⟨w, h, q⟩ := r
    have hqs : qsEncode ⟨src, .Resize ⟨w, h, q⟩⟩ =
        (kSrc ++ 61 :: pctEncode src) ++ 38 ::
          ((kRW ++ 61 :: natEnc w) ++ 38 ::
            ((kRH ++ 61 :: natEnc h) ++ 38 :: (kRQ ++ 61 :: natEnc q))) := by
      simp [qsEncode]
    rw [hqs]
    exact no63_append (no63_kv (by decide) hpct)
      (no63_cons (by decide)
        (no63_append (no63_kv (by decide) (natEnc_no63 w))
          (no63_cons (by decide)
            (no63_append (no63_kv (by decide) (natEnc_no63 h))
              (no63_cons (by decide) (no63_kv (by decide) (natEnc_no63 q)))))))
  | Blur b =>
    obtain ⟨w, h, sw, sh, sg⟩ := b
    have hqs : qsEncode ⟨src, .Blur ⟨w, h, sw, sh, sg⟩⟩ =
        (kSrc ++ 61 :: pctEncode src) ++ 38 ::
          ((kBW ++ 61 :: natEnc w) ++ 38 ::
            ((kBH ++ 61 :: natEnc h) ++ 38 ::
              ((kBSW ++ 61 :: natEnc sw) ++ 38 ::
                ((kBSH ++ 61 :: natEnc sh) ++ 38 :: (kBS ++ 61 :: natEnc sg))))) := by
      simp [qsEncode]
    rw [hqs]
    exact no63_append (no63_kv (by decide) hpct)
      (no63_cons (by decide)
        (no63_append (no63_kv (by decide) (natEnc_no63 w))
          (no63_cons (by decide)
            (no63_append (no63_kv (by decide) (natEnc_no63 h))
              (no63_cons (by decide)
                (no63_append (no63_kv (by decide) (natEnc_no63 sw))
                  (no63_cons (by decide)
                    (no63_append (no63_kv (by decide) (natEnc_no63 sh))
                      (no63_cons (by decide)
                        (no63_kv (by decide) (natEnc_no63 sg)))))))))))

/- ======================  claim theorems  ====================== -/

set_option maxRecDepth 100000

/-- C3: for every descriptor and every handler path containing no `?`,
decoding the URL produced for the descriptor yields it back:
`CachedImage::from_url_encoded` applied to the output of
`get_url_encoded(d, handlerPath)` returns `Ok(d)` (here `some d`), under
the byte-string well-formedness of `src` and the `u32`/`u8` ranges of the
numeric fields. -/
theorem c3_url_roundtrip (img : CachedImage) (handler : List Nat)
    (hq : (63 : Nat) ∉ handler) (hsrc : ∀ b ∈ img.src, b < 256)
    (hb : imgBounds img) :
    CachedImage.from_url_encoded (CachedImage.get_url_encoded img handler) = some img := by
  unfold CachedImage.from_url_encoded CachedImage.get_url_encoded
  rw [splitOnByte_append hq, splitOnByte_not_mem (qsEncode_no63 img hsrc)]
  exact qsDecode_qsEncode img hsrc hb

/-- Witness for C3 at the descriptor of the repository's own
`test_url_encode_roundtrip` (src `images/test.png`, Resize 100×80 q75)
and handler path `/h`. -/
theorem c3_url_roundtrip_witness :
    CachedImage.from_url_encoded
        (CachedImage.get_url_encoded
          ⟨[105, 109, 97, 103, 101, 115, 47, 116, 101, 115, 116, 46, 112, 110, 103],
           .Resize ⟨100, 80, 75⟩⟩ [47, 104]) =
      some ⟨[105, 109, 97, 103, 101, 115, 47, 116, 101, 115, 116, 46, 112, 110, 103],
           .Resize ⟨100, 80, 75⟩⟩ :=
  c3_url_roundtrip _ _ (by decide) (by decide) ⟨by decide, by decide, by decide⟩

/-- C2: the claim states `from_file_path (get_file_path d) = Some d`; on
the code it is FALSE for every descriptor, because the first path segment
`cache` (5 bytes, not a multiple of 4) fails base64 decoding and the
`.ok()?` on line 530 aborts the whole scan. Shown here at the descriptor
of the repository's own `test_file_path_roundtrip` test (src
`images/test.png`, Blur 10×10, svg 100×100, sigma 12), whose `unwrap`
would panic. -/
theorem c2_file_path_roundtrip_fails :
    CachedImage.from_file_path
        (CachedImage.get_file_path
          ⟨[105, 109, 97, 103, 101, 115, 47, 116, 101, 115, 116, 46, 112, 110, 103],
           .Blur ⟨10, 10, 100, 100, 12⟩⟩) = none := by
  decide

/-- C6: the claim states `from_file_path` scans segments and tolerates
earlier segments that are not valid base64, returning the first segment
that parses. On the code this is FALSE: for the path
`xx/<base64 of the query encoding of d>` the scan aborts with `None` at
the segment `xx` (invalid base64 length) even though the next segment
decodes and parses to `d` — as the second conjunct shows, the very same
segment alone yields `some d`. -/
theorem c6_from_file_path_not_tolerant :
    CachedImage.from_file_path
        ([120, 120] ++ 47 :: b64Encode (qsEncode ⟨[97], .Resize ⟨1, 2, 3⟩⟩)) = none ∧
    CachedImage.from_file_path (b64Encode (qsEncode ⟨[97], .Resize ⟨1, 2, 3⟩⟩)) =
      some ⟨[97], .Resize ⟨1, 2, 3⟩⟩ := by
  constructor
  · decide
  · decide

/-- C10 (counterexample): the claim states the cache file path for
src `a.png` with Resize 100×80 q75 ends in `a.png.webp` (the full original
file name followed by the output extension). On the code this is FALSE:
`PathBuf::set_extension` *replaces* the `png` extension, so the file name
is `a.webp`. -/
theorem c10_suffix_counterexample :
    ¬ List.isSuffixOf [97, 46, 112, 110, 103, 46, 119, 101, 98, 112]
        (CachedImage.get_file_path ⟨[97, 46, 112, 110, 103], .Resize ⟨100, 80, 75⟩⟩) = true := by
  decide

/-- C10 (amended): the cache file path for that descriptor is exactly
`cache/image/<base64 of the canonical query string>/a.webp` — the parent
directory name is the base64 encoding of the descriptor's canonical query
encoding, and the file name is the source stem with its extension
replaced by `webp`. -/
theorem c10_file_path_layout :
    CachedImage.get_file_path ⟨[97, 46, 112, 110, 103], .Resize ⟨100, 80, 75⟩⟩ =
      [99, 97, 99, 104, 101, 47, 105, 109, 97, 103, 101, 47] ++
        b64Encode (qsEncode ⟨[97, 46, 112, 110, 103], .Resize ⟨100, 80, 75⟩⟩) ++
        [47, 97, 46, 119, 101, 98, 112] := by
  decide

/-- C1: the claim states N concurrent `createImage(d)` calls run the
Transform Pipeline exactly once via a single atomic insert-if-absent on
the in-flight map. On the code this is FALSE: lines 205/222 are a separate
`get` and `insert`. In the modelled interleaving two callers suspend at
genuine await points (`file_exists`, then the semaphore acquire on line
225) so that caller B's `get` finds A's entry while its mutex still holds
`None`; B then falls through the `if let` (lines 209-218), overwrites the
entry, and spawns a second pipeline execution: the run ends with TWO
spawns, both callers reporting `Ok(true)`. -/
theorem c1_dedup_race :
    (dedupRun [false, false, true, true, false, false, true, true] dedupInit).1.spawns = 2 ∧
    (dedupRun [false, false, true, true, false, false, true, true] dedupInit).2.1 =
      .done (some true) ∧
    (dedupRun [false, false, true, true, false, false, true, true] dedupInit).2.2 =
      .done (some true) := by
  constructor
  · decide
  constructor
  · decide
  · decide

/-- C4: with `noUpscale` configured and a source that exists, is
nonempty, and whose pixel dimensions can be read, the clamp step on a
Resize request clamps each requested dimension independently down to the
source's value (`min`), leaving a dimension that is within bounds
unchanged — when both are within bounds the request is unchanged (the
`min`s collapse); Blur requests are never clamped. -/
theorem c4_clamp (cfg : OptConfig) (dims : List Nat → Option (Nat × Nat)) (fs : FS)
    (src bytes : List Nat) (w h q ow oh : Nat)
    (hup : cfg.no_upscale = true)
    (hsrc : fsLookup fs (path_from_segments [cfg.root_file_path, src]) = some bytes)
    (hne : bytes.length ≠ 0) (hdims : dims bytes = some (ow, oh)) :
    maybe_clamp cfg dims fs ⟨src, .Resize ⟨w, h, q⟩⟩ =
      .ok (some ⟨src, .Resize ⟨min w ow, min h oh, q⟩⟩) ∧
    (∀ b : Blur, ∀ fs' : FS,
      maybe_clamp cfg dims fs' ⟨src, .Blur b⟩ = .ok (some ⟨src, .Blur b⟩)) := by
  constructor
  · unfold maybe_clamp
    rw [if_neg (fun hc => hc hup)]
    simp only [hsrc, hdims, if_neg hne]
    by_cases hle : w ≤ ow ∧ h ≤ oh
    · rw [if_pos hle, Nat.min_eq_left hle.1, Nat.min_eq_left hle.2]
    · rw [if_neg hle]
  · intro b fs'
    unfold maybe_clamp
    rw [if_neg (fun hc => hc hup)]

/-- Witness for C4: a 200×50 request against a 100×100 source becomes
100×50 (width clamped to the source, height untouched). -/
theorem c4_clamp_witness :
    maybe_clamp ⟨[47], [112, 117, 98, 108, 105, 99], true, none⟩
        (fun bs => if bs = [7] then some (100, 100) else none)
        [(path_from_segments [[112, 117, 98, 108, 105, 99], [105, 109, 103, 46, 112, 110, 103]], [7])]
        ⟨[105, 109, 103, 46, 112, 110, 103], .Resize ⟨200, 50, 75⟩⟩ =
      .ok (some ⟨[105, 109, 103, 46, 112, 110, 103], .Resize ⟨100, 50, 75⟩⟩) := by
  have h := c4_clamp ⟨[47], [112, 117, 98, 108, 105, 99], true, none⟩
      (fun bs => if bs = [7] then some (100, 100) else none)
      [(path_from_segments [[112, 117, 98, 108, 105, 99], [105, 109, 103, 46, 112, 110, 103]], [7])]
      [105, 109, 103, 46, 112, 110, 103] [7] 200 50 75 100 100 rfl (by decide) (by decide) (by decide)
  exact h.1

/-- C5 (counterexample): the claim states that whenever the source cannot
be probed — missing, unreadable/not decodable, or zero-length — the clamp
step never returns an error. On the code this is FALSE for the
"not decodable" case: with `noUpscale` set, a source file that exists and
is nonempty but fails `image::open` (the oracle returns `none`) makes
`create_image` return the propagated error from `maybe_clamp` (the `?` on
line 314) instead of proceeding. -/
theorem c5_unprobeable_counterexample :
    create_image ⟨[47], [112, 117, 98, 108, 105, 99], true, none⟩ (fun _ => none)
        (fun _ _ => [])
        [(path_from_segments [[112, 117, 98, 108, 105, 99], [105, 109, 103, 46, 112, 110, 103]], [1])]
        ⟨[105, 109, 103, 46, 112, 110, 103], .Resize ⟨10, 10, 80⟩⟩ =
      .error .ImageError := by
  rfl

/-- C5 (amended): with `noUpscale` configured, for a Resize request the
clamp step proceeds with the original unmodified request when the source
file is missing or zero-length; but when the source exists, is nonempty
and cannot be decoded as an image, `maybe_clamp` returns the
`image::open` error (and `create_image` propagates it) rather than
proceeding. -/
theorem c5_clamp_unprobeable (cfg : OptConfig) (dims : List Nat → Option (Nat × Nat))
    (fs : FS) (src : List Nat) (r : Resize) (hup : cfg.no_upscale = true) :
    (fsLookup fs (path_from_segments [cfg.root_file_path, src]) = none →
      maybe_clamp cfg dims fs ⟨src, .Resize r⟩ = .ok (some ⟨src, .Resize r⟩)) ∧
    (∀ bytes, fsLookup fs (path_from_segments [cfg.root_file_path, src]) = some bytes →
      bytes.length = 0 →
      maybe_clamp cfg dims fs ⟨src, .Resize r⟩ = .ok (some ⟨src, .Resize r⟩)) ∧
    (∀ bytes, fsLookup fs (path_from_segments [cfg.root_file_path, src]) = some bytes →
      bytes.length ≠ 0 → dims bytes = none →
      maybe_clamp cfg dims fs ⟨src, .Resize r⟩ = .error .ImageError) := by
  refine ⟨fun hnone => ?_, fun bytes hsome hz => ?_, fun bytes hsome hnz hdims => ?_⟩
  · unfold maybe_clamp
    rw [if_neg (fun hc => hc hup)]
    simp only [hnone]
  · unfold maybe_clamp
    rw [if_neg (fun hc => hc hup)]
    simp only [hsome, if_pos hz]
  · unfold maybe_clamp
    rw [if_neg (fun hc => hc hup)]
    simp only [hsome, if_neg hnz, hdims]

/-- Witness for the amended C5: a missing source proceeds unchanged. -/
theorem c5_clamp_unprobeable_witness :
    maybe_clamp ⟨[47], [112, 117, 98, 108, 105, 99], true, none⟩ (fun _ => none) []
        ⟨[105, 109, 103, 46, 112, 110, 103], .Resize ⟨10, 10, 80⟩⟩ =
      .ok (some ⟨[105, 109, 103, 46, 112, 110, 103], .Resize ⟨10, 10, 80⟩⟩) :=
  (c5_clamp_unprobeable _ _ _ _ _ rfl).1 rfl

/-- C8: the claim states that with a TTL configured, a read of an entry
whose age exceeds the TTL removes the entry and returns absent. On the
code this is FALSE: that path deadlocks — the line-265 `Ref` guard still
holds the shard read lock when line 270's `remove` requests the same
shard's write lock — so the entry is neither removed nor anything
returned. The non-expired read (stored SVG returned, entry left in place)
and the miss (absent, no side effect) behave as claimed. -/
theorem c8_get_blur_expired_deadlocks (cfg : OptConfig) (cache : BlurCache)
    (img : CachedImage) (e : BlurEntry) (ttl : Nat) (now : Int)
    (httl : cfg.blur_ttl_seconds = some ttl) (hl : lookupBlur img cache = some e) :
    (now - e.created_at ≤ toI64 ttl →
      get_blur cfg cache now img = .ret (some e.svg_data) cache) ∧
    (now - e.created_at > toI64 ttl → get_blur cfg cache now img = .deadlock) ∧
    (∀ c : BlurCache, lookupBlur img c = none → get_blur cfg c now img = .ret none c) := by
  refine ⟨fun hle => ?_, fun hgt => ?_, fun c hc => ?_⟩
  · unfold get_blur
    simp only [hl, httl]
    rw [if_neg (by omega)]
  · unfold get_blur
    simp only [hl, httl]
    rw [if_pos hgt]
  · unfold get_blur
    simp only [hc]

/-- Witness for C8 (TTL 10s, entry created at T=0): a read at T+5
returns the entry and leaves it in place; a read at T+11 — the claim's
eviction scenario — deadlocks; a miss is a side-effect-free absent. -/
theorem c8_get_blur_expired_deadlocks_witness :
    get_blur ⟨[], [], false, some 10⟩ [(⟨[97], .Resize ⟨1, 1, 1⟩⟩, ⟨[120], 0⟩)] 5
        ⟨[97], .Resize ⟨1, 1, 1⟩⟩ =
      .ret (some [120]) [(⟨[97], .Resize ⟨1, 1, 1⟩⟩, ⟨[120], 0⟩)] ∧
    get_blur ⟨[], [], false, some 10⟩ [(⟨[97], .Resize ⟨1, 1, 1⟩⟩, ⟨[120], 0⟩)] 11
        ⟨[97], .Resize ⟨1, 1, 1⟩⟩ = .deadlock ∧
    get_blur ⟨[], [], false, some 10⟩ [] 5 ⟨[97], .Resize ⟨1, 1, 1⟩⟩ = .ret none [] := by
  refine ⟨?_, ?_, ?_⟩
  · exact (c8_get_blur_expired_deadlocks ⟨[], [], false, some 10⟩
      [(⟨[97], .Resize ⟨1, 1, 1⟩⟩, ⟨[120], 0⟩)]
      ⟨[97], .Resize ⟨1, 1, 1⟩⟩ ⟨[120], 0⟩ 10 5 rfl (by decide)).1 (by decide)
  · exact (c8_get_blur_expired_deadlocks ⟨[], [], false, some 10⟩
      [(⟨[97], .Resize ⟨1, 1, 1⟩⟩, ⟨[120], 0⟩)]
      ⟨[97], .Resize ⟨1, 1, 1⟩⟩ ⟨[120], 0⟩ 10 11 rfl (by decide)).2.1 (by decide)
  · exact (c8_get_blur_expired_deadlocks ⟨[], [], false, some 10⟩
      [(⟨[97], .Resize ⟨1, 1, 1⟩⟩, ⟨[120], 0⟩)]
      ⟨[97], .Resize ⟨1, 1, 1⟩⟩ ⟨[120], 0⟩ 10 5 rfl (by decide)).2.2 [] rfl

/-- C9: the claim states `preload_disk_cache` inserts an entry for every
`.svg` file anywhere under `<root>/cache/image`, including the
base64-named subdirectories where blur outputs are written. On the code
this is FALSE: `read_dir` is single-level, so for a filesystem holding
exactly one blur output at its genuine location
`public/cache/image/<base64>/img.svg` (an `.svg` file, inside an existing
cache directory), the preload inserts nothing — the only top-level entry
is the base64-named directory, whose extension is not `svg`. -/
theorem c9_preload_misses_subdirectories :
    dirExists
        [(pathJoin [112, 117, 98, 108, 105, 99]
            (CachedImage.get_file_path
              ⟨[105, 109, 103, 46, 112, 110, 103], .Blur ⟨10, 10, 100, 100, 12⟩⟩),
          [60, 115, 118, 103, 62])]
        (pathJoin (pathJoin [112, 117, 98, 108, 105, 99] cacheSeg) imageSeg) = true ∧
    pathExtension
        (pathJoin [112, 117, 98, 108, 105, 99]
          (CachedImage.get_file_path
            ⟨[105, 109, 103, 46, 112, 110, 103], .Blur ⟨10, 10, 100, 100, 12⟩⟩)) =
      some [115, 118, 103] ∧
    preload_disk_cache ⟨[47], [112, 117, 98, 108, 105, 99], false, some 3600⟩
        [(pathJoin [112, 117, 98, 108, 105, 99]
            (CachedImage.get_file_path
              ⟨[105, 109, 103, 46, 112, 110, 103], .Blur ⟨10, 10, 100, 100, 12⟩⟩),
          [60, 115, 118, 103, 62])]
        0 [] = [] := by
  refine ⟨by decide, by decide, by decide⟩

/- ======================  path-length machinery for C7  ====================== -/

theorem trim_len_le (l : List Nat) : (trimSlashes l).length ≤ l.length := by
  unfold trimSlashes
  calc ((l.dropWhile (fun b => b == 47)).reverse.dropWhile (fun b => b == 47)).reverse.length
      = ((l.dropWhile (fun b => b == 47)).reverse.dropWhile (fun b => b == 47)).length := by
        rw [List.length_reverse]
    _ ≤ (l.dropWhile (fun b => b == 47)).reverse.length := (List.dropWhile_sublist _).length_le
    _ = (l.dropWhile (fun b => b == 47)).length := by rw [List.length_reverse]
    _ ≤ l.length := (List.dropWhile_sublist _).length_le

theorem dropWhile_eq_self_of_head {l : List Nat} (h : l.head? ≠ some 47) :
    l.dropWhile (fun b => b == 47) = l := by
  cases l with
  | nil => rfl
  | cons a t =>
    have ha : a ≠ 47 := by
      intro he
      exact h (by rw [he]; rfl)
    simp [List.dropWhile_cons, ha]

theorem trim_eq_self {l : List Nat} (h1 : l.head? ≠ some 47) (h2 : l.getLast? ≠ some 47) :
    trimSlashes l = l := by
  unfold trimSlashes
  rw [dropWhile_eq_self_of_head h1]
  rw [dropWhile_eq_self_of_head (by rwa [List.head?_reverse])]
  exact List.reverse_reverse l

-- b64 lemmas
theorem b64Encode_len_ge (l : List Nat) : l.length ≤ (b64Encode l).length := by
  induction l using b64Encode.induct with
  | case1 a b c rest ih => simp [b64Encode, b64quad]; omega
  | case2 a b => simp [b64Encode]
  | case3 a => simp [b64Encode]
  | case4 => simp [b64Encode]

theorem b64Encode_ne_nil {l : List Nat} (h : l ≠ []) : b64Encode l ≠ [] := by
  rcases l with _ | ⟨a, _ | ⟨b, _ | ⟨c, rest⟩⟩⟩
  · simp at h
  · simp [b64Encode]
  · simp [b64Encode]
  · simp [b64Encode, b64quad]

theorem b64Encode_getLast {l : List Nat} (h : l ≠ []) :
    (b64Encode l).getLast? = some 61 ∨
      ∃ d, l.getLast? = some d ∧ (b64Encode l).getLast? = some (b64tbl (d % 64)) := by
  induction l using b64Encode.induct with
  | case1 a b c rest ih =>
    rcases eq_or_ne rest [] with hre | hre
    · subst hre
      right
      exact ⟨c, rfl, by simp [b64Encode, b64quad]⟩
    · have hbne := b64Encode_ne_nil hre
      have hl : (b64Encode (a :: b :: c :: rest)).getLast? = (b64Encode rest).getLast? := by
        show (b64quad a b c ++ b64Encode rest).getLast? = _
        rw [List.getLast?_append]
        obtain ⟨y, hy⟩ := Option.isSome_iff_exists.mp (List.getLast?_isSome.mpr hbne)
        rw [hy]
        rfl
      have hr : (a :: b :: c :: rest).getLast? = rest.getLast? := by
        rcases rest with _ | ⟨x, xs⟩
        · simp at hre
        · simp [List.getLast?_cons_cons]
      rcases ih hre with hc | ⟨d, hd1, hd2⟩
      · left; rw [hl]; exact hc
      · right; exact ⟨d, by rw [hr]; exact hd1, by rw [hl]; exact hd2⟩
  | case2 a b => left; simp [b64Encode]
  | case3 a => left; simp [b64Encode]
  | case4 => simp at h

-- qs shape facts
theorem qs_head_shape (img : CachedImage) :
    ∃ t, qsEncode img = 115 :: 114 :: 99 :: 61 :: t := by
  obtain ⟨src, opt⟩ := img
  cases opt with
  | Resize r =>
    refine ⟨pctEncode src ++ 38 :: (kRW ++ 61 :: natEnc r.width ++ 38 ::
      (kRH ++ 61 :: natEnc r.height ++ 38 :: (kRQ ++ 61 :: natEnc r.quality))), ?_⟩
    simp [qsEncode, kSrc]
  | Blur b =>
    refine ⟨pctEncode src ++ 38 :: (kBW ++ 61 :: natEnc b.width ++ 38 ::
      (kBH ++ 61 :: natEnc b.height ++ 38 ::
        (kBSW ++ 61 :: natEnc b.svg_width ++ 38 ::
          (kBSH ++ 61 :: natEnc b.svg_height ++ 38 :: (kBS ++ 61 :: natEnc b.sigma))))), ?_⟩
    simp [qsEncode, kSrc]

theorem b64_qs_head (img : CachedImage) :
    (b64Encode (qsEncode img)).head? = some 99 := by
  obtain ⟨t, ht⟩ := qs_head_shape img
  rw [ht]
  show (b64quad 115 114 99 ++ b64Encode (61 :: t)).head? = some 99
  rfl

theorem qs_last_digit (img : CachedImage) :
    ∃ d, (qsEncode img).getLast? = some d ∧ 48 ≤ d ∧ d ≤ 57 := by
  obtain ⟨src, opt⟩ := img
  have hlast : ∀ (pre : List Nat) (n : Nat),
      ∃ d, (pre ++ natEnc n).getLast? = some d ∧ 48 ≤ d ∧ d ≤ 57 := by
    intro pre n
    have hne := natEnc_ne_nil n
    obtain ⟨y, hy⟩ := Option.isSome_iff_exists.mp (List.getLast?_isSome.mpr hne)
    have hmem : y ∈ natEnc n := by
      rw [List.getLast?_eq_getLast _ hne] at hy
      exact Option.some.inj hy ▸ List.getLast_mem hne
    have hd := natEnc_digits n y hmem
    refine ⟨y, ?_, hd.1, hd.2⟩
    rw [List.getLast?_append, hy]
    rfl
  cases opt with
  | Resize r =>
    have h := hlast (kSrc ++ 61 :: pctEncode src ++ 38 ::
      (kRW ++ 61 :: natEnc r.width ++ 38 ::
        (kRH ++ 61 :: natEnc r.height ++ 38 :: (kRQ ++ [61])))) r.quality
    obtain ⟨d, hd, h1, h2⟩ := h
    refine ⟨d, ?_, h1, h2⟩
    rw [← hd]
    congr 1
    simp [qsEncode]
  | Blur b =>
    have h := hlast (kSrc ++ 61 :: pctEncode src ++ 38 ::
      (kBW ++ 61 :: natEnc b.width ++ 38 ::
        (kBH ++ 61 :: natEnc b.height ++ 38 ::
          (kBSW ++ 61 :: natEnc b.svg_width ++ 38 ::
            (kBSH ++ 61 :: natEnc b.svg_height ++ 38 :: (kBS ++ [61])))))) b.sigma
    obtain ⟨d, hd, h1, h2⟩ := h
    refine ⟨d, ?_, h1, h2⟩
    rw [← hd]
    congr 1
    simp [qsEncode]

theorem b64tbl_digit_ne_47 : ∀ d : Nat, 48 ≤ d → d ≤ 57 → b64tbl d ≠ 47 := by decide

theorem qs_ne_nil (img : CachedImage) : qsEncode img ≠ [] := by
  obtain ⟨t, ht⟩ := qs_head_shape img
  rw [ht]
  simp

theorem b64_qs_facts (img : CachedImage) :
    trimSlashes (b64Encode (qsEncode img)) = b64Encode (qsEncode img) ∧
    b64Encode (qsEncode img) ≠ [] ∧
    img.src.length + 5 ≤ (b64Encode (qsEncode img)).length := by
  have hne : b64Encode (qsEncode img) ≠ [] := b64Encode_ne_nil (qs_ne_nil img)
  have hhead : (b64Encode (qsEncode img)).head? ≠ some 47 := by
    rw [b64_qs_head img]
    simp
  have hlast : (b64Encode (qsEncode img)).getLast? ≠ some 47 := by
    rcases b64Encode_getLast (qs_ne_nil img) with hc | ⟨d, hd1, hd2⟩
    · rw [hc]; simp
    · rw [hd2]
      obtain ⟨d', hd', hlo, hhi⟩ := qs_last_digit img
      rw [hd1] at hd'
      have : d = d' := Option.some.inj hd'
      subst this
      have hmod : d % 64 = d := Nat.mod_eq_of_lt (by omega)
      rw [hmod]
      intro hcc
      exact b64tbl_digit_ne_47 d hlo hhi (Option.some.inj hcc)
  have hlen : img.src.length + 5 ≤ (b64Encode (qsEncode img)).length := by
    have h1 : img.src.length + 5 ≤ (qsEncode img).length := by
      obtain ⟨src, opt⟩ := img
      have hp := pctEncode_len src
      cases opt <;>
        · simp only [qsEncode, List.length_append, List.length_cons]
          simp [kSrc, kRW, kRH, kRQ, kBW, kBH, kBSW, kBSH, kBS]
          omega
    exact le_trans h1 (b64Encode_len_ge _)
  exact ⟨trim_eq_self hhead hlast, hne, hlen⟩

-- dirLen / set_extension lemmas
theorem takeWhile_append_le {p : Nat → Bool} {A B : List Nat} {a : Nat} (h : p a = false) :
    (List.takeWhile p (A ++ a :: B)).length ≤ A.length := by
  induction A with
  | nil => simp [List.takeWhile_cons, h]
  | cons x A' ih =>
    simp only [List.cons_append, List.takeWhile_cons]
    cases hx : p x
    · simp
    · simp only [hx, if_true, List.length_cons]
      omega

theorem dirLen_le (p : List Nat) : dirLenFn p ≤ p.length := by
  unfold dirLenFn
  omega

theorem dirLen_ge (x y : List Nat) : x.length + 1 ≤ dirLenFn (x ++ 47 :: y) := by
  unfold dirLenFn
  have h1 : (x ++ 47 :: y).reverse = y.reverse ++ 47 :: x.reverse := by
    simp
  rw [h1]
  have h2 : (List.takeWhile (fun b => b != 47) (y.reverse ++ 47 :: x.reverse)).length ≤
      y.reverse.length := takeWhile_append_le (by simp)
  simp only [List.length_append, List.length_cons, List.length_reverse] at h2 ⊢
  omega

theorem set_extension_len (p ext : List Nat) :
    dirLenFn p + 1 + ext.length ≤ (set_extension p ext).length := by
  unfold set_extension
  simp only [List.length_append, List.length_cons, List.length_take]
  have := dirLen_le p
  omega

theorem set_extension_head {p : List Nat} (hd : 1 ≤ dirLenFn p) (ext : List Nat) :
    (set_extension p ext).head? = p.head? := by
  unfold set_extension
  have hp : p ≠ [] := by
    intro he
    subst he
    simp [dirLenFn] at hd
  have ht : p.take (dirLenFn p) ≠ [] := by
    intro he
    have := congrArg List.length he
    simp only [List.length_take, List.length_nil] at this
    have hle := dirLen_le p
    have hlp : 0 < p.length := List.length_pos.mpr hp
    omega
  rw [List.append_assoc, List.head?_append_of_ne_nil _ ht, List.head?_take,
      if_neg (by omega)]

theorem set_extension_getLast (p ext : List Nat) (hne : ext ≠ []) :
    (set_extension p ext).getLast? = ext.getLast? := by
  unfold set_extension
  rw [List.append_assoc, List.getLast?_append, List.getLast?_append]
  have : (46 :: ext).getLast? = ext.getLast? := by
    rcases ext with _ | ⟨x, xs⟩
    · simp at hne
    · simp [List.getLast?_cons_cons]
  rw [this]
  obtain ⟨y, hy⟩ := Option.isSome_iff_exists.mp (List.getLast?_isSome.mpr hne)
  rw [hy]
  rfl

-- pfs lemmas
theorem joinSlash_two (a b : List Nat) : joinSlash [a, b] = a ++ 47 :: b := rfl

theorem pfs_two (a b : List Nat) :
    path_from_segments [a, b] =
      if trimSlashes a = [] then (if trimSlashes b = [] then [] else trimSlashes b)
      else if trimSlashes b = [] then trimSlashes a
      else trimSlashes a ++ 47 :: trimSlashes b := by
  unfold path_from_segments
  simp only [List.map_cons, List.map_nil, List.filter]
  by_cases ha : trimSlashes a = []
  · rw [if_pos ha, ha]
    by_cases hb : trimSlashes b = []
    · rw [if_pos hb, hb]
      rfl
    · rw [if_neg hb]
      have : (trimSlashes b).isEmpty = false := by
        rcases hx : trimSlashes b with _ | _
        · exact absurd hx hb
        · rfl
      simp [this, joinSlash]
  · rw [if_neg ha]
    have ha' : (trimSlashes a).isEmpty = false := by
      rcases hx : trimSlashes a with _ | _
      · exact absurd hx ha
      · rfl
    by_cases hb : trimSlashes b = []
    · rw [if_pos hb, hb]
      simp [ha', joinSlash]
    · rw [if_neg hb]
      have hb' : (trimSlashes b).isEmpty = false := by
        rcases hx : trimSlashes b with _ | _
        · exact absurd hx hb
        · rfl
      simp [ha', hb', joinSlash]

theorem pfs_four (B src' : List Nat) (hB : trimSlashes B = B) (hBne : B ≠ []) :
    path_from_segments [cacheSeg, imageSeg, B, src'] =
      if trimSlashes src' = [] then cacheSeg ++ 47 :: (imageSeg ++ 47 :: B)
      else cacheSeg ++ 47 :: (imageSeg ++ 47 :: (B ++ 47 :: trimSlashes src')) := by
  unfold path_from_segments
  simp only [List.map_cons, List.map_nil, List.filter]
  have hc : trimSlashes cacheSeg = cacheSeg := by decide
  have hi : trimSlashes imageSeg = imageSeg := by decide
  rw [hc, hi, hB]
  have hB' : B.isEmpty = false := by
    rcases hx : B with _ | _
    · exact absurd hx hBne
    · rfl
  by_cases hs : trimSlashes src' = []
  · rw [if_pos hs, hs]
    simp [hB', joinSlash]
  · rw [if_neg hs]
    have hs' : (trimSlashes src').isEmpty = false := by
      rcases hx : trimSlashes src' with _ | _
      · exact absurd hx hs
      · rfl
    simp [hB', hs', joinSlash]

-- the cache file path is strictly longer than the trimmed source, slash-free
-- at its ends, and nonempty
theorem gfp_facts (fi : CachedImage) :
    (trimSlashes fi.src).length < (CachedImage.get_file_path fi).length ∧
    trimSlashes (CachedImage.get_file_path fi) = CachedImage.get_file_path fi ∧
    CachedImage.get_file_path fi ≠ [] := by
  obtain ⟨htrim, hBne, hBlen⟩ := b64_qs_facts fi
  set B := b64Encode (qsEncode fi) with hBdef
  have hextne : extBytes fi.option ≠ [] := by
    cases fi.option <;> simp [extBytes]
  have hextlen : 3 ≤ (extBytes fi.option).length := by
    cases fi.option <;> simp [extBytes]
  have hextlast : (extBytes fi.option).getLast? ≠ some 47 := by
    cases fi.option <;> simp [extBytes]
  set p4 := path_from_segments [cacheSeg, imageSeg, B, fi.src] with hp4def
  have hp4 := pfs_four B fi.src htrim hBne
  -- dirLen bound for p4, by cases on the trimmed source
  have hdl : 12 ≤ dirLenFn p4 ∧
      (trimSlashes fi.src ≠ [] → 13 + B.length ≤ dirLenFn p4) := by
    by_cases hs : trimSlashes fi.src = []
    · constructor
      · rw [hp4def, hp4, if_pos hs]
        have : cacheSeg ++ 47 :: (imageSeg ++ 47 :: B) =
            (cacheSeg ++ 47 :: imageSeg) ++ 47 :: B := by simp
        rw [this]
        have := dirLen_ge (cacheSeg ++ 47 :: imageSeg) B
        simp only [List.length_append, List.length_cons] at this ⊢
        have hc : cacheSeg.length = 5 := by decide
        have hi : imageSeg.length = 5 := by decide
        omega
      · intro hcon
        exact absurd hs hcon
    · have hform : p4 = (cacheSeg ++ 47 :: (imageSeg ++ 47 :: B)) ++ 47 :: trimSlashes fi.src := by
        rw [hp4def, hp4, if_neg hs]
        simp
      have hge := dirLen_ge (cacheSeg ++ 47 :: (imageSeg ++ 47 :: B)) (trimSlashes fi.src)
      rw [← hform] at hge
      have hc : cacheSeg.length = 5 := by decide
      have hi : imageSeg.length = 5 := by decide
      simp only [List.length_append, List.length_cons] at hge
      constructor
      · omega
      · intro _
        omega
  have hR := set_extension_len p4 (extBytes fi.option)
  have hgfp : CachedImage.get_file_path fi = set_extension p4 (extBytes fi.option) := rfl
  refine ⟨?_, ?_, ?_⟩
  · rw [hgfp]
    by_cases hs : trimSlashes fi.src = []
    · rw [hs]
      simp only [List.length_nil]
      omega
    · have h13 := hdl.2 hs
      have hsle : (trimSlashes fi.src).length ≤ fi.src.length := trim_len_le _
      omega
  · rw [hgfp]
    apply trim_eq_self
    · rw [set_extension_head (by omega) _]
      have hhead : p4.head? = some 99 := by
        rw [hp4def, hp4]
        by_cases hs : trimSlashes fi.src = []
        · rw [if_pos hs]
          rfl
        · rw [if_neg hs]
          rfl
      rw [hhead]
      simp
    · rw [set_extension_getLast _ _ hextne]
      exact hextlast
  · rw [hgfp]
    intro he
    have := congrArg List.length he
    simp only [List.length_nil] at this
    omega

theorem src_path_lt (root : List Nat) (fi : CachedImage) :
    (path_from_segments [root, fi.src]).length <
      (path_from_segments [root, CachedImage.get_file_path fi]).length := by
  obtain ⟨hlen, htrim, hne⟩ := gfp_facts fi
  rw [pfs_two root fi.src, pfs_two root (CachedImage.get_file_path fi), htrim]
  have hposR : 0 < (CachedImage.get_file_path fi).length := by
    rcases hx : CachedImage.get_file_path fi with _ | _
    · exact absurd hx hne
    · simp
  by_cases ha : trimSlashes root = []
  · rw [if_pos ha, if_pos ha, if_neg hne]
    by_cases hs : trimSlashes fi.src = []
    · rw [if_pos hs]
      simpa using hposR
    · rw [if_neg hs]
      omega
  · rw [if_neg ha, if_neg ha, if_neg hne]
    by_cases hs : trimSlashes fi.src = []
    · rw [if_pos hs]
      simp only [List.length_append, List.length_cons]
      omega
    · rw [if_neg hs]
      simp only [List.length_append, List.length_cons]
      omega

-- clamp congruence and source preservation
theorem maybe_clamp_congr {cfg : OptConfig} {dims : List Nat → Option (Nat × Nat)}
    {fs1 fs2 : FS} {img : CachedImage}
    (h : fsLookup fs1 (path_from_segments [cfg.root_file_path, img.src]) =
         fsLookup fs2 (path_from_segments [cfg.root_file_path, img.src])) :
    maybe_clamp cfg dims fs1 img = maybe_clamp cfg dims fs2 img := by
  unfold maybe_clamp
  rw [h]

theorem maybe_clamp_src {cfg : OptConfig} {dims : List Nat → Option (Nat × Nat)}
    {fs : FS} {img fi : CachedImage}
    (h : maybe_clamp cfg dims fs img = .ok (some fi)) : fi.src = img.src := by
  unfold maybe_clamp at h
  repeat' split at h
  all_goals
    first
      | (simp only [Except.ok.injEq, Option.some.injEq] at h
         rw [← h])
      | simp at h

/-- C7: if `create_image(d)` completes successfully with `created = true`,
a second call started after the first fully completes (no other
intervening filesystem operations) returns `created = false` with the
filesystem unchanged — in particular the file contents on disk are
identical to those after the first call. The key fact is that the write
target `<root>/cache/image/<base64>/...` can never alias the clamp step's
source probe path `<root>/<src>`: the base64 directory name alone is
strictly longer than the source path. -/
theorem c7_second_call (cfg : OptConfig) (dims : List Nat → Option (Nat × Nat))
    (enc : CachedImageOption → List Nat → List Nat) (fs fs' : FS) (img : CachedImage)
    (h : create_image cfg dims enc fs img = .ok (true, fs')) :
    create_image cfg dims enc fs' img = .ok (false, fs') := by
  unfold create_image at h
  cases hmc : maybe_clamp cfg dims fs img with
  | error e => rw [hmc] at h; simp at h
  | ok o =>
    rw [hmc] at h
    cases o with
    | none => simp at h
    | some fi =>
      simp only at h
      by_cases hex : (fsLookup fs
          (path_from_segments [cfg.root_file_path, fi.get_file_path])).isSome
      · rw [if_pos hex] at h
        simp at h
      · rw [if_neg hex] at h
        cases hsb : fsLookup fs fi.src with
        | none => simp only [hsb] at h; simp at h
        | some sb =>
          simp only [hsb] at h
          cases hdm : dims sb with
          | none => simp only [hdm] at h; simp at h
          | some d =>
            simp only [hdm] at h
            simp only [Except.ok.injEq, Prod.mk.injEq, true_and] at h
            -- h : (fp, enc fi.option sb) :: fs = fs'
            have hsrc : fi.src = img.src := maybe_clamp_src hmc
            have hlt := src_path_lt cfg.root_file_path fi
            rw [hsrc] at hlt
            have hnep : path_from_segments [cfg.root_file_path, img.src] ≠
                path_from_segments [cfg.root_file_path, fi.get_file_path] := by
              intro he
              rw [he] at hlt
              omega
            have hl_sp : fsLookup fs' (path_from_segments [cfg.root_file_path, img.src]) =
                fsLookup fs (path_from_segments [cfg.root_file_path, img.src]) := by
              rw [← h]
              simp only [fsLookup]
              rw [if_neg (fun he => hnep he.symm)]
            have hmc' : maybe_clamp cfg dims fs' img = .ok (some fi) :=
              (maybe_clamp_congr hl_sp).trans hmc
            have hl_fp : fsLookup fs'
                (path_from_segments [cfg.root_file_path, fi.get_file_path]) =
                some (enc fi.option sb) := by
              rw [← h]
              simp [fsLookup]
            unfold create_image
            simp only [hmc', hl_fp, Option.isSome_some, if_true]

/-- Witness for C7: a second sequential `create_image` on the filesystem
produced by a successful first call (source `img.png`, Resize 200×50 q75,
root `public`) returns `Ok(false)` and leaves the filesystem unchanged. -/
theorem c7_second_call_witness :
    create_image ⟨[47], [112, 117, 98, 108, 105, 99], false, none⟩ (fun _ => some (1, 1))
        (fun _ _ => [0])
        ((path_from_segments [[112, 117, 98, 108, 105, 99],
            CachedImage.get_file_path
              ⟨[105, 109, 103, 46, 112, 110, 103], .Resize ⟨200, 50, 75⟩⟩], [0]) ::
          [([105, 109, 103, 46, 112, 110, 103], [9])])
        ⟨[105, 109, 103, 46, 112, 110, 103], .Resize ⟨200, 50, 75⟩⟩ =
      .ok (false,
        (path_from_segments [[112, 117, 98, 108, 105, 99],
            CachedImage.get_file_path
              ⟨[105, 109, 103, 46, 112, 110, 103], .Resize ⟨200, 50, 75⟩⟩], [0]) ::
          [([105, 109, 103, 46, 112, 110, 103], [9])]) :=
  c7_second_call ⟨[47], [112, 117, 98, 108, 105, 99], false, none⟩ (fun _ => some (1, 1))
    (fun _ _ => [0]) [([105, 109, 103, 46, 112, 110, 103], [9])]
    ((path_from_segments [[112, 117, 98, 108, 105, 99],
        CachedImage.get_file_path
          ⟨[105, 109, 103, 46, 112, 110, 103], .Resize ⟨200, 50, 75⟩⟩], [0]) ::
      [([105, 109, 103, 46, 112, 110, 103], [9])])
    ⟨[105, 109, 103, 46, 112, 110, 103], .Resize ⟨200, 50, 75⟩⟩ (by rfl)
